import Mathlib

/-!
Verification of the UART CLI sender (src/UART/main.c): the frame builder
`send_data_to_device`, the baud-rate mapping of `serial_port_open`, and the
deadline-bounded accumulation loop `read_until_marker`, shallowly embedded as
pure functions over an explicit trace of environment events (clock readings,
select outcomes, read outcomes, allocation outcomes).
-/

namespace UART

/-- Byte values of an ASCII string literal, as `strlen`/`memcpy` see them. -/
def strBytes (s : String) : List Nat := s.toList.map Char.toNat

/-- `strlen` on a byte sequence: the number of bytes before the first NUL. -/
def strlen (bs : List Nat) : Nat := (bs.takeWhile (fun b => b ≠ 0)).length

/-- The literal `"[UART_COM][START]"` from `send_data_to_device`. -/
def header_start_message : List Nat := strBytes "[UART_COM][START]"

/-- The literal `"[UART_COM][END]"` from `send_data_to_device` and `main`. -/
def header_end_msg : List Nat := strBytes "[UART_COM][END]"

/--
Embedding of `send_data_to_device` up to the point where the assembled frame is
handed to `write_all`: `none` when the handle is invalid or `malloc` fails (the
function returns without writing), otherwise `some` of the exact byte sequence
built by the three `memcpy` calls.  `msg_len` follows the C ternary
`(length > 0) ? (size_t)length : strlen(message)`.
-/
def send_data_to_device (dev_handle : Int) (message : List Nat) (length : Int)
    (allocOk : Bool) : Option (List Nat) :=
  if dev_handle < 0 then none
  else
    let msg_len : Nat := if 0 < length then length.toNat else strlen message
    if allocOk = false then none
    else some (header_start_message ++ message.take msg_len ++ header_end_msg)

/-- The `speed_t` constants selected by the `switch` in `serial_port_open`. -/
inductive Speed where
  | B9600
  | B19200
  | B38400
  | B57600
  | B115200
deriving DecidableEq

/-- Embedding of the baud `switch` in `serial_port_open` (lines 98-106). -/
def baudSpeed (baud_rate : Int) : Speed :=
  if baud_rate = 9600 then .B9600
  else if baud_rate = 19200 then .B19200
  else if baud_rate = 38400 then .B38400
  else if baud_rate = 57600 then .B57600
  else if baud_rate = 115200 then .B115200
  else .B115200

end UART

namespace UART

/-- `CHUNK` from `read_until_marker`. -/
def CHUNK : Nat := 512

/-- Embedding of `memmem(hay, hay.length, needle, needle.length) != NULL`:
whether `needle` occurs contiguously somewhere in `hay`. -/
def hasSub (needle hay : List Nat) : Bool :=
  (List.range (hay.length + 1)).any
    (fun i => decide ((hay.drop i).take needle.length = needle))

/-- One environment event, as observed by one iteration of the
`read_until_marker` loop after its deadline check.  The `allocOk` flag on the
ready events records whether a `realloc`, if one is needed to make room for the
next chunk, succeeds. -/
inductive Ev where
  /-- `select` returned `-1` with `errno == EINTR`. -/
  | selIntr
  /-- `select` returned `-1` with some other `errno`. -/
  | selFail
  /-- `select` returned `0`: nothing readable before the budget ran out. -/
  | selTimeout
  /-- readable; `read` returned `-1` with `errno == EINTR`. -/
  | readIntr (allocOk : Bool)
  /-- readable; `read` returned `-1` with `errno == EAGAIN`/`EWOULDBLOCK`. -/
  | readWouldBlock (allocOk : Bool)
  /-- readable; `read` returned `-1` with some other `errno`. -/
  | readFail (allocOk : Bool)
  /-- readable; `read` returned `0` (end of stream). -/
  | readEof (allocOk : Bool)
  /-- readable; `read` returned `chunk.length > 0` bytes, namely `chunk`. -/
  | readData (allocOk : Bool) (chunk : List Nat)
deriving DecidableEq

/-- The three ways `read_until_marker` returns: `0` with the buffer and length
(marker found), `1` with the buffer and length (timeout or end of stream), or
`-1` with the buffer freed and the out-parameters untouched. -/
inductive ReadResult where
  | complete (bytes : List Nat) (len : Nat)
  | timedOut (bytes : List Nat) (len : Nat)
  | error
deriving DecidableEq

/-- Result of running the loop on a trace, instrumented with the `select`
calls actually issued (`waits`: elapsed seconds and the `tv_sec` budget), the
`read` calls actually issued (`reads`: capacity and length at the call, after
any growth), and the chunks appended by successful reads in arrival order
(`chunks`).  `result = none` means the trace ended, or contained an event no
real execution can produce, before the loop returned. -/
structure LoopOut where
  result : Option ReadResult
  waits : List (Int × Int)
  reads : List (Nat × Nat)
  chunks : List (List Nat)
deriving DecidableEq

/--
Embedding of the `while (1)` loop of `read_until_marker` (lines 211-271).
Each iteration consumes one trace element `(elapsed, ev)`: `elapsed` is the
value of `time(NULL) - start` computed at the top of the iteration, `ev` what
the environment then does.  Mirrors the C control flow: the deadline check
first (`break` to the timeout epilogue), then `select` dispatch, then — on
readability — the single conditional capacity doubling, then `read` dispatch,
then append and full-buffer marker search.  A `readData` event whose chunk is
empty or larger than the room `read` was given cannot arise from a real
execution, so the run is marked stuck (`result = none`).
-/
def readLoopI (marker : List Nat) (timeout : Int) (cap : Nat) (buf : List Nat) :
    List (Int × Ev) → LoopOut
  | [] => ⟨none, [], [], []⟩
  | (elapsed, ev) :: rest =>
    let remaining := timeout - elapsed
    if remaining ≤ 0 then ⟨some (.timedOut buf buf.length), [], [], []⟩
    else
      let w := (elapsed, remaining)
      match ev with
      | .selIntr =>
        let o := readLoopI marker timeout cap buf rest
        ⟨o.result, w :: o.waits, o.reads, o.chunks⟩
      | .selFail => ⟨some .error, [w], [], []⟩
      | .selTimeout => ⟨some (.timedOut buf buf.length), [w], [], []⟩
      | .readIntr allocOk =>
        if buf.length + CHUNK > cap then
          if allocOk then
            let o := readLoopI marker timeout (2 * cap) buf rest
            ⟨o.result, w :: o.waits, (2 * cap, buf.length) :: o.reads, o.chunks⟩
          else ⟨some .error, [w], [], []⟩
        else
          let o := readLoopI marker timeout cap buf rest
          ⟨o.result, w :: o.waits, (cap, buf.length) :: o.reads, o.chunks⟩
      | .readWouldBlock allocOk =>
        if buf.length + CHUNK > cap then
          if allocOk then
            let o := readLoopI marker timeout (2 * cap) buf rest
            ⟨o.result, w :: o.waits, (2 * cap, buf.length) :: o.reads, o.chunks⟩
          else ⟨some .error, [w], [], []⟩
        else
          let o := readLoopI marker timeout cap buf rest
          ⟨o.result, w :: o.waits, (cap, buf.length) :: o.reads, o.chunks⟩
      | .readFail allocOk =>
        if buf.length + CHUNK > cap then
          if allocOk then ⟨some .error, [w], [(2 * cap, buf.length)], []⟩
          else ⟨some .error, [w], [], []⟩
        else ⟨some .error, [w], [(cap, buf.length)], []⟩
      | .readEof allocOk =>
        if buf.length + CHUNK > cap then
          if allocOk then ⟨some (.timedOut buf buf.length), [w], [(2 * cap, buf.length)], []⟩
          else ⟨some .error, [w], [], []⟩
        else ⟨some (.timedOut buf buf.length), [w], [(cap, buf.length)], []⟩
      | .readData allocOk chunk =>
        if buf.length + CHUNK > cap ∧ allocOk = false then ⟨some .error, [w], [], []⟩
        else
          let cap' := if buf.length + CHUNK > cap then 2 * cap else cap
          if chunk.length = 0 ∨ cap' - buf.length < chunk.length then
            ⟨none, [w], [(cap', buf.length)], []⟩
          else
            let buf' := buf ++ chunk
            if marker.length ≤ buf'.length ∧ hasSub marker buf' = true then
              ⟨some (.complete buf' buf'.length), [w], [(cap', buf.length)], [chunk]⟩
            else
              let o := readLoopI marker timeout cap' buf' rest
              ⟨o.result, w :: o.waits, (cap', buf.length) :: o.reads, chunk :: o.chunks⟩

/-- The return value of the loop, forgetting the instrumentation. -/
def readLoop (marker : List Nat) (timeout : Int) (cap : Nat) (buf : List Nat)
    (trace : List (Int × Ev)) : Option ReadResult :=
  (readLoopI marker timeout cap buf trace).result

/-- Embedding of `read_until_marker` itself: the initial `malloc(CHUNK)`
(returning `-1` on failure), then the loop from `cap = CHUNK`, `len = 0`. -/
def read_until_marker (marker : List Nat) (timeout : Int) (initAllocOk : Bool)
    (trace : List (Int × Ev)) : Option ReadResult :=
  if initAllocOk then readLoop marker timeout CHUNK [] trace else some .error

/-- The C-visible outcome: the `int` return value and the out-parameters
`(*out_buf, *out_len)`, which are written only on the `0` and `1` returns. -/
def rumOutput : ReadResult → Int × Option (List Nat × Nat)
  | .complete b l => (0, some (b, l))
  | .timedOut b l => (1, some (b, l))
  | .error => (-1, none)

/-- `read_until_marker` as the caller sees it: return code plus out-params. -/
def read_until_marker_c (marker : List Nat) (timeout : Int) (initAllocOk : Bool)
    (trace : List (Int × Ev)) : Option (Int × Option (List Nat × Nat)) :=
  (read_until_marker marker timeout initAllocOk trace).map rumOutput

end UART

namespace UART

/-- `hasSub` agrees with contiguous-substring decomposition. -/
theorem hasSub_iff (needle hay : List Nat) :
    hasSub needle hay = true ↔ ∃ pre post, hay = pre ++ needle ++ post := by
  unfold hasSub
  rw [List.any_eq_true]
  constructor
  · rintro ⟨i, _, hi⟩
    rw [decide_eq_true_iff] at hi
    refine ⟨hay.take i, (hay.drop i).drop needle.length, ?_⟩
    conv_lhs => rw [← List.take_append_drop i hay]
    conv_lhs => rw [← List.take_append_drop needle.length (hay.drop i)]
    rw [hi, List.append_assoc]
  · rintro ⟨pre, post, rfl⟩
    refine ⟨pre.length, ?_, ?_⟩
    · rw [List.mem_range]
      simp [List.length_append]
      omega
    · rw [decide_eq_true_iff, List.append_assoc, List.drop_left, List.take_left]

/-- C1: with a valid handle and successful allocation, the frame handed to the
write loop is exactly `"[UART_COM][START]" ++ P ++ "[UART_COM][END]"`, of
length `len(start) + len(P) + len(end)`. -/
theorem sendFrameExact (dev_handle : Int) (P : List Nat)
    (hh : 0 ≤ dev_handle) :
    send_data_to_device dev_handle P (P.length : Int) true =
      some (header_start_message ++ P ++ header_end_msg) ∧
    (header_start_message ++ P ++ header_end_msg).length =
      header_start_message.length + P.length + header_end_msg.length := by
  constructor
  · unfold send_data_to_device
    rw [if_neg (by omega)]
    simp only [show ((true = false) = False) by simp, if_false]
    congr 2
    rcases P with _ | ⟨b, bs⟩
    · simp [strlen]
    · have hpos : (0 : Int) < ((b :: bs).length : Int) := by
        simp
      rw [if_pos hpos]
      simp
  · simp [List.length_append]
    omega

/-- C1 witness: the frame for the one-byte payload `[65]` on handle `0`. -/
theorem sendFrameExact_witness :
    send_data_to_device 0 [65] 1 true =
      some (header_start_message ++ [65] ++ header_end_msg) ∧
    (header_start_message ++ [65] ++ header_end_msg).length =
      header_start_message.length + 1 + header_end_msg.length := by
  have h := sendFrameExact 0 [65] (by norm_num)
  simpa using h

/-- C7: the baud mapping is total — each of the five supported rates selects
its own constant, and every other integer selects `B115200`. -/
theorem baudSpeedTotal :
    baudSpeed 9600 = .B9600 ∧ baudSpeed 19200 = .B19200 ∧
    baudSpeed 38400 = .B38400 ∧ baudSpeed 57600 = .B57600 ∧
    baudSpeed 115200 = .B115200 ∧
    ∀ b : Int, b ∉ ([9600, 19200, 38400, 57600, 115200] : List Int) →
      baudSpeed b = .B115200 := by
  refine ⟨rfl, rfl, rfl, rfl, rfl, ?_⟩
  intro b hb
  simp only [List.mem_cons, List.not_mem_nil, or_false, not_or] at hb
  obtain ⟨h1, h2, h3, h4, h5⟩ := hb
  unfold baudSpeed
  rw [if_neg h1, if_neg h2, if_neg h3, if_neg h4, if_neg h5]

/-- C7 witness: the fallback at the unsupported rate `4800`. -/
theorem baudSpeedTotal_witness : baudSpeed 4800 = .B115200 :=
  baudSpeedTotal.2.2.2.2.2 4800 (by decide)

end UART

namespace UART

@[simp] theorem LoopOut.result_mk (r w rd c) : (LoopOut.mk r w rd c).result = r := rfl

@[simp] theorem LoopOut.waits_mk (r w rd c) : (LoopOut.mk r w rd c).waits = w := rfl

@[simp] theorem LoopOut.reads_mk (r w rd c) : (LoopOut.mk r w rd c).reads = rd := rfl

@[simp] theorem LoopOut.chunks_mk (r w rd c) : (LoopOut.mk r w rd c).chunks = c := rfl

theorem readLoopI_spec (marker : List Nat) (timeout : Int) :
    ∀ (cap : Nat) (buf : List Nat) (trace : List (Int × Ev)),
      (∀ b l, (readLoopI marker timeout cap buf trace).result = some (.complete b l) →
         b = buf ++ (readLoopI marker timeout cap buf trace).chunks.flatten ∧
         l = b.length ∧ marker.length ≤ b.length ∧ hasSub marker b = true) ∧
      (∀ b l, (readLoopI marker timeout cap buf trace).result = some (.timedOut b l) →
         b = buf ++ (readLoopI marker timeout cap buf trace).chunks.flatten ∧ l = b.length) ∧
      (∀ p ∈ (readLoopI marker timeout cap buf trace).waits,
         p.2 = timeout - p.1 ∧ 0 < p.2) ∧
      (CHUNK ≤ cap → buf.length ≤ cap →
        ∀ p ∈ (readLoopI marker timeout cap buf trace).reads,
          CHUNK ≤ p.1 ∧ p.2 ≤ p.1 ∧ p.2 + CHUNK ≤ p.1) := by
  intro cap buf trace
  induction cap, buf, trace using readLoopI.induct marker timeout
  case case1 =>
    simp [readLoopI]
  case case2 =>
    rename_i cap buf elapsed ev rest rem h
    simp only [readLoopI, if_pos (show timeout - elapsed ≤ 0 from h)]
    refine ⟨by simp, ?_, by simp, by simp⟩
    intro b l hbl
    simp only [LoopOut.result_mk, Option.some.injEq, ReadResult.timedOut.injEq] at hbl
    obtain ⟨rfl, rfl⟩ := hbl
    simp
  case case3 =>
    rename_i cap buf elapsed rest rem h IH
    simp only [readLoopI, if_neg (show ¬(timeout - elapsed ≤ 0) from h), LoopOut.result_mk,
      LoopOut.waits_mk, LoopOut.reads_mk, LoopOut.chunks_mk]
    refine ⟨IH.1, IH.2.1, ?_, IH.2.2.2⟩
    intro p hp
    rcases List.mem_cons.mp hp with rfl | hp
    · exact ⟨rfl, by omega⟩
    · exact IH.2.2.1 p hp
  case case4 =>
    rename_i cap buf elapsed rest rem h
    simp only [readLoopI, if_neg (show ¬(timeout - elapsed ≤ 0) from h), LoopOut.result_mk,
      LoopOut.waits_mk, LoopOut.reads_mk, LoopOut.chunks_mk]
    refine ⟨by simp, by simp, ?_, by simp⟩
    intro p hp
    rcases List.mem_cons.mp hp with rfl | hp
    · exact ⟨rfl, by omega⟩
    · simp at hp
  case case5 =>
    rename_i cap buf elapsed rest rem h
    simp only [readLoopI, if_neg (show ¬(timeout - elapsed ≤ 0) from h), LoopOut.result_mk,
      LoopOut.waits_mk, LoopOut.reads_mk, LoopOut.chunks_mk]
    refine ⟨by simp, ?_, ?_, by simp⟩
    · intro b l hbl
      simp only [Option.some.injEq, ReadResult.timedOut.injEq] at hbl
      obtain ⟨rfl, rfl⟩ := hbl
      simp
    · intro p hp
      rcases List.mem_cons.mp hp with rfl | hp
      · exact ⟨rfl, by omega⟩
      · simp at hp
  case case6 =>
    rename_i cap buf elapsed rest rem h hg IH
    simp only [readLoopI, if_neg (show ¬(timeout - elapsed ≤ 0) from h), if_pos hg,
      reduceIte, LoopOut.result_mk, LoopOut.waits_mk, LoopOut.reads_mk,
      LoopOut.chunks_mk]
    refine ⟨IH.1, IH.2.1, ?_, ?_⟩
    · intro p hp
      rcases List.mem_cons.mp hp with rfl | hp
      · exact ⟨rfl, by omega⟩
      · exact IH.2.2.1 p hp
    · intro hc hl p hp
      rcases List.mem_cons.mp hp with rfl | hp
      · exact ⟨by omega, by omega, by omega⟩
      · exact IH.2.2.2 (by omega) (by omega) p hp
  case case7 =>
    rename_i cap buf elapsed rest rem h allocOk hg hok
    simp only [readLoopI, if_neg (show ¬(timeout - elapsed ≤ 0) from h), if_pos hg,
      if_neg hok, LoopOut.result_mk, LoopOut.waits_mk, LoopOut.reads_mk, LoopOut.chunks_mk]
    refine ⟨by simp, by simp, ?_, by simp⟩
    intro p hp
    rcases List.mem_cons.mp hp with rfl | hp
    · exact ⟨rfl, by omega⟩
    · simp at hp
  case case8 =>
    rename_i cap buf elapsed rest rem h allocOk hg IH
    simp only [readLoopI, if_neg (show ¬(timeout - elapsed ≤ 0) from h), if_neg hg,
      LoopOut.result_mk, LoopOut.waits_mk, LoopOut.reads_mk, LoopOut.chunks_mk]
    refine ⟨IH.1, IH.2.1, ?_, ?_⟩
    · intro p hp
      rcases List.mem_cons.mp hp with rfl | hp
      · exact ⟨rfl, by omega⟩
      · exact IH.2.2.1 p hp
    · intro hc hl p hp
      rcases List.mem_cons.mp hp with rfl | hp
      · exact ⟨by omega, by omega, by omega⟩
      · exact IH.2.2.2 hc hl p hp
  case case9 =>
    rename_i cap buf elapsed rest rem h hg IH
    simp only [readLoopI, if_neg (show ¬(timeout - elapsed ≤ 0) from h), if_pos hg,
      reduceIte, LoopOut.result_mk, LoopOut.waits_mk, LoopOut.reads_mk,
      LoopOut.chunks_mk]
    refine ⟨IH.1, IH.2.1, ?_, ?_⟩
    · intro p hp
      rcases List.mem_cons.mp hp with rfl | hp
      · exact ⟨rfl, by omega⟩
      · exact IH.2.2.1 p hp
    · intro hc hl p hp
      rcases List.mem_cons.mp hp with rfl | hp
      · exact ⟨by omega, by omega, by omega⟩
      · exact IH.2.2.2 (by omega) (by omega) p hp
  case case10 =>
    rename_i cap buf elapsed rest rem h allocOk hg hok
    simp only [readLoopI, if_neg (show ¬(timeout - elapsed ≤ 0) from h), if_pos hg,
      if_neg hok, LoopOut.result_mk, LoopOut.waits_mk, LoopOut.reads_mk, LoopOut.chunks_mk]
    refine ⟨by simp, by simp, ?_, by simp⟩
    intro p hp
    rcases List.mem_cons.mp hp with rfl | hp
    · exact ⟨rfl, by omega⟩
    · simp at hp
  case case11 =>
    rename_i cap buf elapsed rest rem h allocOk hg IH
    simp only [readLoopI, if_neg (show ¬(timeout - elapsed ≤ 0) from h), if_neg hg,
      LoopOut.result_mk, LoopOut.waits_mk, LoopOut.reads_mk, LoopOut.chunks_mk]
    refine ⟨IH.1, IH.2.1, ?_, ?_⟩
    · intro p hp
      rcases List.mem_cons.mp hp with rfl | hp
      · exact ⟨rfl, by omega⟩
      · exact IH.2.2.1 p hp
    · intro hc hl p hp
      rcases List.mem_cons.mp hp with rfl | hp
      · exact ⟨by omega, by omega, by omega⟩
      · exact IH.2.2.2 hc hl p hp
  case case12 =>
    rename_i cap buf elapsed rest rem h hg
    simp only [readLoopI, if_neg (show ¬(timeout - elapsed ≤ 0) from h), if_pos hg,
      reduceIte, LoopOut.result_mk, LoopOut.waits_mk, LoopOut.reads_mk,
      LoopOut.chunks_mk]
    refine ⟨by simp, by simp, ?_, ?_⟩
    · intro p hp
      rcases List.mem_cons.mp hp with rfl | hp
      · exact ⟨rfl, by omega⟩
      · simp at hp
    · intro hc hl p hp
      rcases List.mem_cons.mp hp with rfl | hp
      · exact ⟨by omega, by omega, by omega⟩
      · simp at hp
  case case13 =>
    rename_i cap buf elapsed rest rem h allocOk hg hok
    simp only [readLoopI, if_neg (show ¬(timeout - elapsed ≤ 0) from h), if_pos hg,
      if_neg hok, LoopOut.result_mk, LoopOut.waits_mk, LoopOut.reads_mk, LoopOut.chunks_mk]
    refine ⟨by simp, by simp, ?_, by simp⟩
    intro p hp
    rcases List.mem_cons.mp hp with rfl | hp
    · exact ⟨rfl, by omega⟩
    · simp at hp
  case case14 =>
    rename_i cap buf elapsed rest rem h allocOk hg
    simp only [readLoopI, if_neg (show ¬(timeout - elapsed ≤ 0) from h), if_neg hg,
      LoopOut.result_mk, LoopOut.waits_mk, LoopOut.reads_mk, LoopOut.chunks_mk]
    refine ⟨by simp, by simp, ?_, ?_⟩
    · intro p hp
      rcases List.mem_cons.mp hp with rfl | hp
      · exact ⟨rfl, by omega⟩
      · simp at hp
    · intro hc hl p hp
      rcases List.mem_cons.mp hp with rfl | hp
      · exact ⟨by omega, by omega, by omega⟩
      · simp at hp
  case case15 =>
    rename_i cap buf elapsed rest rem h hg
    simp only [readLoopI, if_neg (show ¬(timeout - elapsed ≤ 0) from h), if_pos hg,
      reduceIte, LoopOut.result_mk, LoopOut.waits_mk, LoopOut.reads_mk,
      LoopOut.chunks_mk]
    refine ⟨by simp, ?_, ?_, ?_⟩
    · intro b l hbl
      simp only [Option.some.injEq, ReadResult.timedOut.injEq] at hbl
      obtain ⟨rfl, rfl⟩ := hbl
      simp
    · intro p hp
      rcases List.mem_cons.mp hp with rfl | hp
      · exact ⟨rfl, by omega⟩
      · simp at hp
    · intro hc hl p hp
      rcases List.mem_cons.mp hp with rfl | hp
      · exact ⟨by omega, by omega, by omega⟩
      · simp at hp
  case case16 =>
    rename_i cap buf elapsed rest rem h allocOk hg hok
    simp only [readLoopI, if_neg (show ¬(timeout - elapsed ≤ 0) from h), if_pos hg,
      if_neg hok, LoopOut.result_mk, LoopOut.waits_mk, LoopOut.reads_mk, LoopOut.chunks_mk]
    refine ⟨by simp, by simp, ?_, by simp⟩
    intro p hp
    rcases List.mem_cons.mp hp with rfl | hp
    · exact ⟨rfl, by omega⟩
    · simp at hp
  case case17 =>
    rename_i cap buf elapsed rest rem h allocOk hg
    simp only [readLoopI, if_neg (show ¬(timeout - elapsed ≤ 0) from h), if_neg hg,
      LoopOut.result_mk, LoopOut.waits_mk, LoopOut.reads_mk, LoopOut.chunks_mk]
    refine ⟨by simp, ?_, ?_, ?_⟩
    · intro b l hbl
      simp only [Option.some.injEq, ReadResult.timedOut.injEq] at hbl
      obtain ⟨rfl, rfl⟩ := hbl
      simp
    · intro p hp
      rcases List.mem_cons.mp hp with rfl | hp
      · exact ⟨rfl, by omega⟩
      · simp at hp
    · intro hc hl p hp
      rcases List.mem_cons.mp hp with rfl | hp
      · exact ⟨by omega, by omega, by omega⟩
      · simp at hp
  case case18 =>
    rename_i cap buf elapsed rest rem h allocOk chunk h2
    simp only [readLoopI, if_neg (show ¬(timeout - elapsed ≤ 0) from h), if_pos h2,
      LoopOut.result_mk, LoopOut.waits_mk, LoopOut.reads_mk, LoopOut.chunks_mk]
    refine ⟨by simp, by simp, ?_, by simp⟩
    intro p hp
    rcases List.mem_cons.mp hp with rfl | hp
    · exact ⟨rfl, by omega⟩
    · simp at hp
  case case19 =>
    rename_i cap buf elapsed rest rem h allocOk chunk h2 capp h3
    simp only [readLoopI, if_neg (show ¬(timeout - elapsed ≤ 0) from h),
      if_neg (show ¬(buf.length + CHUNK > cap ∧ allocOk = false) from h2),
      if_pos (show chunk.length = 0 ∨
        (if buf.length + CHUNK > cap then 2 * cap else cap) - buf.length < chunk.length from h3),
      LoopOut.result_mk, LoopOut.waits_mk, LoopOut.reads_mk, LoopOut.chunks_mk]
    refine ⟨by simp, by simp, ?_, ?_⟩
    · intro p hp
      rcases List.mem_cons.mp hp with rfl | hp
      · exact ⟨rfl, by omega⟩
      · simp at hp
    · intro hc hl p hp
      rcases List.mem_cons.mp hp with rfl | hp
      · by_cases hg : buf.length + CHUNK > cap
        · rw [if_pos hg]; exact ⟨by omega, by omega, by omega⟩
        · rw [if_neg hg]; exact ⟨by omega, by omega, by omega⟩
      · simp at hp
  case case20 =>
    rename_i cap buf elapsed rest rem h allocOk chunk h2 capp h3 bufp h4
    simp only [readLoopI, if_neg (show ¬(timeout - elapsed ≤ 0) from h),
      if_neg (show ¬(buf.length + CHUNK > cap ∧ allocOk = false) from h2),
      if_neg (show ¬(chunk.length = 0 ∨
        (if buf.length + CHUNK > cap then 2 * cap else cap) - buf.length < chunk.length) from h3),
      if_pos (show marker.length ≤ (buf ++ chunk).length ∧
        hasSub marker (buf ++ chunk) = true from h4),
      LoopOut.result_mk, LoopOut.waits_mk, LoopOut.reads_mk, LoopOut.chunks_mk]
    refine ⟨?_, by simp, ?_, ?_⟩
    · intro b l hbl
      simp only [Option.some.injEq, ReadResult.complete.injEq] at hbl
      obtain ⟨rfl, rfl⟩ := hbl
      exact ⟨by simp, rfl, h4.1, h4.2⟩
    · intro p hp
      rcases List.mem_cons.mp hp with rfl | hp
      · exact ⟨rfl, by omega⟩
      · simp at hp
    · intro hc hl p hp
      rcases List.mem_cons.mp hp with rfl | hp
      · by_cases hg : buf.length + CHUNK > cap
        · rw [if_pos hg]; exact ⟨by omega, by omega, by omega⟩
        · rw [if_neg hg]; exact ⟨by omega, by omega, by omega⟩
      · simp at hp
  case case21 =>
    rename_i cap buf elapsed rest rem h allocOk chunk h2 capp h3 bufp h4 IH
    have hcv : capp = if buf.length + CHUNK > cap then 2 * cap else cap := rfl
    have hbv : bufp = buf ++ chunk := rfl
    have hfit : ¬(chunk.length = 0) ∧ ¬(capp - buf.length < chunk.length) := not_or.mp h3
    rw [hcv] at hfit
    rw [hcv, hbv] at IH
    simp only [readLoopI, if_neg (show ¬(timeout - elapsed ≤ 0) from h),
      if_neg (show ¬(buf.length + CHUNK > cap ∧ allocOk = false) from h2),
      if_neg (show ¬(chunk.length = 0 ∨
        (if buf.length + CHUNK > cap then 2 * cap else cap) - buf.length < chunk.length) from h3),
      if_neg (show ¬(marker.length ≤ (buf ++ chunk).length ∧
        hasSub marker (buf ++ chunk) = true) from h4),
      LoopOut.result_mk, LoopOut.waits_mk, LoopOut.reads_mk, LoopOut.chunks_mk]
    refine ⟨?_, ?_, ?_, ?_⟩
    · intro b l hbl
      obtain ⟨hb, hl', hm, hs⟩ := IH.1 b l hbl
      refine ⟨?_, hl', hm, hs⟩
      rw [hb]
      simp
    · intro b l hbl
      obtain ⟨hb, hl'⟩ := IH.2.1 b l hbl
      refine ⟨?_, hl'⟩
      rw [hb]
      simp
    · intro p hp
      rcases List.mem_cons.mp hp with rfl | hp
      · exact ⟨rfl, by omega⟩
      · exact IH.2.2.1 p hp
    · intro hc hl p hp
      by_cases hg : buf.length + CHUNK > cap
      · rw [if_pos hg] at hp IH hfit
        rcases List.mem_cons.mp hp with rfl | hp
        · exact ⟨by omega, by omega, by omega⟩
        · refine IH.2.2.2 (by omega) ?_ p hp
          simp only [List.length_append]
          omega
      · rw [if_neg hg] at hp IH hfit
        rcases List.mem_cons.mp hp with rfl | hp
        · exact ⟨by omega, by omega, by omega⟩
        · refine IH.2.2.2 (by omega) ?_ p hp
          simp only [List.length_append]
          omega

end UART

namespace UART

/-- C2: whenever `read_until_marker` returns the `Complete` status, the end
marker occurs contiguously within the first `out_len` bytes of the returned
buffer; the reported length is the full accumulated length (never cut below
the end of the marker), so the buffer up to the reported length contains the
marker. -/
theorem readCompleteContainsMarker (marker : List Nat) (timeout : Int)
    (initAllocOk : Bool) (trace : List (Int × Ev)) (b : List Nat) (l : Nat)
    (h : read_until_marker marker timeout initAllocOk trace = some (.complete b l)) :
    l = b.length ∧ ∃ pre post, b.take l = pre ++ marker ++ post := by
  unfold read_until_marker at h
  by_cases hi : initAllocOk = true
  · rw [if_pos hi] at h
    obtain ⟨-, hl, -, hs⟩ :=
      (readLoopI_spec marker timeout CHUNK [] trace).1 b l h
    refine ⟨hl, ?_⟩
    rw [hl, List.take_length]
    exact (hasSub_iff marker b).mp hs
  · rw [if_neg hi] at h
    cases h

/-- C2 witness: a one-event trace that delivers the marker `[7]` whole. -/
theorem readCompleteContainsMarker_witness :
    1 = [7].length ∧ ∃ pre post, ([7] : List Nat).take 1 = pre ++ [7] ++ post :=
  readCompleteContainsMarker [7] 1 true [(0, Ev.readData true [7])] [7] 1 (by decide)

end UART

namespace UART

/-- C3: the loop never reports `Complete` before the full marker is in the
accumulated buffer, and on the iteration whose successful read makes the
marker present in `buf ++ chunk` — in particular when the marker's bytes were
split across earlier chunks and this one — it reports `Complete` at once,
because the search scans the whole accumulated buffer after every read. -/
theorem splitMarkerDetected (marker : List Nat) (timeout : Int) (cap : Nat)
    (buf : List Nat) (trace : List (Int × Ev)) (elapsed : Int) (allocOk : Bool)
    (chunk : List Nat) (rest : List (Int × Ev)) (b : List Nat) (l : Nat) :
    (readLoop marker timeout cap buf trace = some (.complete b l) →
      ∃ pre post, b = pre ++ marker ++ post) ∧
    (0 < timeout - elapsed → (buf.length + CHUNK > cap → allocOk = true) →
      chunk ≠ [] →
      chunk.length ≤ (if buf.length + CHUNK > cap then 2 * cap else cap) - buf.length →
      hasSub marker (buf ++ chunk) = true →
      readLoop marker timeout cap buf ((elapsed, Ev.readData allocOk chunk) :: rest) =
        some (.complete (buf ++ chunk) (buf.length + chunk.length))) := by
  constructor
  · intro h
    obtain ⟨-, -, -, hs⟩ := (readLoopI_spec marker timeout cap buf trace).1 b l h
    exact (hasSub_iff marker b).mp hs
  · intro ht hok hne hfit hs
    have hlen : marker.length ≤ (buf ++ chunk).length := by
      obtain ⟨pre, post, hdec⟩ := (hasSub_iff marker (buf ++ chunk)).mp hs
      rw [hdec]
      simp [List.length_append]
      omega
    have hnalloc : ¬(buf.length + CHUNK > cap ∧ allocOk = false) := by
      rintro ⟨hg, hf⟩
      rw [hok hg] at hf
      cases hf
    have hnstuck : ¬(chunk.length = 0 ∨
        (if buf.length + CHUNK > cap then 2 * cap else cap) - buf.length < chunk.length) := by
      rintro (h0 | hlt)
      · exact hne (List.length_eq_zero.mp h0)
      · exact Nat.not_lt.mpr hfit hlt
    unfold readLoop
    simp only [readLoopI, if_neg (show ¬(timeout - elapsed ≤ 0) from by omega),
      if_neg hnalloc, if_neg hnstuck,
      if_pos (show marker.length ≤ (buf ++ chunk).length ∧
        hasSub marker (buf ++ chunk) = true from ⟨hlen, hs⟩), LoopOut.result_mk]
    simp [List.length_append]

/-- C3 witness: the marker `[7, 8]` arrives split across two reads; the run
completes exactly on the read that delivers the second half, and a completed
run at that trace contains the marker. -/
theorem splitMarkerDetected_witness :
    (∃ pre post, ([7, 8] : List Nat) = pre ++ [7, 8] ++ post) ∧
    readLoop [7, 8] 5 512 [7] [(1, Ev.readData true [8])] =
      some (.complete ([7] ++ [8]) ([7].length + [8].length)) := by
  constructor
  · exact (splitMarkerDetected [7, 8] 5 512 [] [(0, Ev.readData true [7]), (1, Ev.readData true [8])]
      0 true [] [] [7, 8] 2).1 (by decide)
  · exact (splitMarkerDetected [7, 8] 5 512 [7] [] 1 true [8] [] [] 0).2
      (by decide) (by decide) (by decide) (by decide) (by decide)

/-- C4: every `select` the loop issues gets a budget equal to
`timeout_seconds` minus that iteration's elapsed time (so never more than the
remaining budget); once the recomputed remaining time is non-positive the loop
stops with `TimedOut` carrying the accumulated bytes; and a signal-interrupted
wait restarts the loop with the same deadline, changing nothing else. -/
theorem deadlineRecomputedEveryIteration (marker : List Nat) (timeout : Int)
    (cap : Nat) (buf : List Nat) (trace : List (Int × Ev)) (elapsed : Int)
    (ev : Ev) (rest : List (Int × Ev)) :
    (∀ p ∈ (readLoopI marker timeout cap buf trace).waits,
      p.2 = timeout - p.1 ∧ 0 < p.2) ∧
    (timeout - elapsed ≤ 0 →
      readLoop marker timeout cap buf ((elapsed, ev) :: rest) =
        some (.timedOut buf buf.length)) ∧
    (0 < timeout - elapsed →
      readLoop marker timeout cap buf ((elapsed, Ev.selIntr) :: rest) =
        readLoop marker timeout cap buf rest) := by
  refine ⟨(readLoopI_spec marker timeout cap buf trace).2.2.1, ?_, ?_⟩
  · intro ht
    unfold readLoop
    simp only [readLoopI, if_pos ht, LoopOut.result_mk]
  · intro ht
    unfold readLoop
    simp only [readLoopI, if_neg (show ¬(timeout - elapsed ≤ 0) from by omega),
      LoopOut.result_mk]

/-- C4 witness: the first wait of a concrete trace has budget exactly
`timeout - elapsed`; an exhausted deadline times out with the accumulated
buffer; an interruption restarts the loop on the remaining trace. -/
theorem deadlineRecomputedEveryIteration_witness :
    (((0, 3) : Int × Int).2 = 3 - ((0, 3) : Int × Int).1 ∧ 0 < ((0, 3) : Int × Int).2) ∧
    readLoop [9] 3 512 [4] [(5, Ev.selIntr)] = some (.timedOut [4] [4].length) ∧
    readLoop [9] 3 512 [] [(0, Ev.selIntr), (5, Ev.selFail)] =
      readLoop [9] 3 512 [] [(5, Ev.selFail)] := by
  refine ⟨?_, ?_, ?_⟩
  · exact (deadlineRecomputedEveryIteration [9] 3 512 []
      [(0, Ev.selIntr), (1, Ev.selTimeout)] 5 Ev.selIntr []).1 (0, 3) (by decide)
  · exact (deadlineRecomputedEveryIteration [9] 3 512 [4] [] 5 Ev.selIntr []).2.1 (by decide)
  · exact (deadlineRecomputedEveryIteration [9] 3 512 [] [] 0 Ev.selFail
      [(5, Ev.selFail)]).2.2 (by decide)

/-- C5: successful reads only append: any `Complete` or `TimedOut` outcome
carries exactly the starting bytes followed by the concatenation of all
delivered chunks in arrival order, with the reported length the total byte
count, however many capacity doublings happened along the way. -/
theorem bufferGrowthPreservesData (marker : List Nat) (timeout : Int)
    (cap : Nat) (buf : List Nat) (trace : List (Int × Ev)) (r : ReadResult)
    (h : readLoop marker timeout cap buf trace = some r) :
    ∀ b l, (r = .complete b l ∨ r = .timedOut b l) →
      b = buf ++ (readLoopI marker timeout cap buf trace).chunks.flatten ∧
      l = b.length ∧
      b.length = buf.length +
        (((readLoopI marker timeout cap buf trace).chunks.map List.length).sum) := by
  intro b l hr
  have key : b = buf ++ (readLoopI marker timeout cap buf trace).chunks.flatten ∧
      l = b.length := by
    rcases hr with rfl | rfl
    · obtain ⟨hb, hl, -, -⟩ := (readLoopI_spec marker timeout cap buf trace).1 b l h
      exact ⟨hb, hl⟩
    · exact (readLoopI_spec marker timeout cap buf trace).2.1 b l h
  refine ⟨key.1, key.2, ?_⟩
  rw [key.1]
  simp [List.length_append, List.length_flatten]

/-- C5 witness: two one-byte reads and then a wait timeout; the partial result
is exactly the two chunks concatenated, of length 2. -/
theorem bufferGrowthPreservesData_witness :
    ([1, 2] : List Nat) = [] ++
      (readLoopI [9] 5 512 []
        [(0, Ev.readData true [1]), (0, Ev.readData true [2]), (1, Ev.selTimeout)]).chunks.flatten ∧
    2 = ([1, 2] : List Nat).length ∧
    ([1, 2] : List Nat).length = ([] : List Nat).length +
      (((readLoopI [9] 5 512 []
        [(0, Ev.readData true [1]), (0, Ev.readData true [2]), (1, Ev.selTimeout)]).chunks.map
          List.length).sum) :=
  bufferGrowthPreservesData [9] 5 512 []
    [(0, Ev.readData true [1]), (0, Ev.readData true [2]), (1, Ev.selTimeout)]
    (.timedOut [1, 2] 2) (by decide) [1, 2] 2 (Or.inr rfl)

/-- C6: a zero-byte read (end of stream) before the marker stops the loop and
reports `TimedOut` with everything accumulated so far — not `Error`. -/
theorem eofReportsTimedOutNotError (marker : List Nat) (timeout : Int)
    (cap : Nat) (buf : List Nat) (elapsed : Int) (allocOk : Bool)
    (rest : List (Int × Ev)) (ht : 0 < timeout - elapsed)
    (hok : buf.length + CHUNK > cap → allocOk = true) :
    readLoop marker timeout cap buf ((elapsed, Ev.readEof allocOk) :: rest) =
      some (.timedOut buf buf.length) := by
  unfold readLoop
  by_cases hg : buf.length + CHUNK > cap
  · simp only [readLoopI, if_neg (show ¬(timeout - elapsed ≤ 0) from by omega),
      if_pos hg, hok hg, reduceIte, LoopOut.result_mk]
  · simp only [readLoopI, if_neg (show ¬(timeout - elapsed ≤ 0) from by omega),
      if_neg hg, LoopOut.result_mk]

/-- C6 witness: end of stream after one accumulated byte yields `TimedOut`
with that byte. -/
theorem eofReportsTimedOutNotError_witness :
    readLoop [9] 1 512 [5] [(0, Ev.readEof true)] = some (.timedOut [5] [5].length) :=
  eofReportsTimedOutNotError [9] 1 512 [5] 0 true [] (by decide) (by decide)

/-- C8: a `-1` return communicates no usable bytes — the out-parameters are
written exactly on the non-error returns — and each `Error` cause named by the
claim (non-interrupt `select` failure, non-interrupt non-would-block `read`
failure, `realloc` failure during growth) does return `-1`. -/
theorem errorCarriesNoUsableBytes (marker : List Nat) (timeout : Int)
    (initAllocOk : Bool) (trace : List (Int × Ev)) (code : Int)
    (out : Option (List Nat × Nat)) (cap : Nat) (buf : List Nat) (elapsed : Int)
    (allocOk : Bool) (chunk : List Nat) (rest : List (Int × Ev)) :
    (read_until_marker_c marker timeout initAllocOk trace = some (code, out) →
      (code = -1 ↔ out = none)) ∧
    (0 < timeout - elapsed →
      readLoop marker timeout cap buf ((elapsed, Ev.selFail) :: rest) = some .error) ∧
    (0 < timeout - elapsed →
      readLoop marker timeout cap buf ((elapsed, Ev.readFail allocOk) :: rest) = some .error) ∧
    (0 < timeout - elapsed → buf.length + CHUNK > cap →
      readLoop marker timeout cap buf ((elapsed, Ev.readData false chunk) :: rest) =
        some .error) := by
  refine ⟨?_, ?_, ?_, ?_⟩
  · intro h
    unfold read_until_marker_c at h
    cases hr : read_until_marker marker timeout initAllocOk trace with
    | none => rw [hr] at h; cases h
    | some r =>
      rw [hr] at h
      simp only [Option.map_some', Option.some.injEq] at h
      cases r <;> simp [rumOutput] at h <;> obtain ⟨rfl, rfl⟩ := h <;> simp
  · intro ht
    unfold readLoop
    simp only [readLoopI, if_neg (show ¬(timeout - elapsed ≤ 0) from by omega),
      LoopOut.result_mk]
  · intro ht
    unfold readLoop
    simp only [readLoopI, if_neg (show ¬(timeout - elapsed ≤ 0) from by omega)]
    by_cases hg : buf.length + CHUNK > cap
    · rw [if_pos hg]
      by_cases ho : allocOk = true
      · rw [if_pos ho]
      · rw [if_neg ho]
    · rw [if_neg hg]
  · intro ht hg
    unfold readLoop
    simp [readLoopI, hg, show ¬(timeout - elapsed ≤ 0) from by omega]

/-- C8 witness: a failed `select` with one byte accumulated returns `-1`, and
the C-visible outcome of that run has return code `-1` with no out-params. -/
theorem errorCarriesNoUsableBytes_witness :
    ((-1 : Int) = -1 ↔ (none : Option (List Nat × Nat)) = none) ∧
    readLoop [9] 5 512 [5] [(0, Ev.selFail)] = some .error := by
  constructor
  · exact (errorCarriesNoUsableBytes [9] 5 true [(0, Ev.selFail)] (-1) none 512 [5] 0 true [] []).1
      (by decide)
  · exact (errorCarriesNoUsableBytes [9] 5 true [] (-1) none 512 [5] 0 true [] []).2.1 (by decide)

/-- C9: with a non-positive timeout (and the clock not behind the entry
instant), the call returns `TimedOut` with an empty buffer of length `0` on
its first iteration, issuing no `select` wait and no `read`. -/
theorem nonpositiveTimeoutImmediateTimedOut (marker : List Nat) (timeout : Int)
    (elapsed : Int) (ev : Ev) (rest : List (Int × Ev)) (ht : timeout ≤ 0)
    (he : 0 ≤ elapsed) :
    read_until_marker marker timeout true ((elapsed, ev) :: rest) =
      some (.timedOut [] 0) ∧
    (readLoopI marker timeout CHUNK [] ((elapsed, ev) :: rest)).waits = [] ∧
    (readLoopI marker timeout CHUNK [] ((elapsed, ev) :: rest)).reads = [] := by
  unfold read_until_marker readLoop
  simp only [if_pos rfl]
  simp only [readLoopI, if_pos (show timeout - elapsed ≤ 0 from by omega),
    LoopOut.result_mk, LoopOut.waits_mk, LoopOut.reads_mk]
  refine ⟨?_, ?_, ?_⟩ <;> first
    | rfl
    | trivial

/-- C9 witness: timeout `0` with a pending data event still returns the empty
`TimedOut` immediately, with no wait and no read issued. -/
theorem nonpositiveTimeoutImmediateTimedOut_witness :
    read_until_marker [9] 0 true [(0, Ev.readData true [1])] =
      some (.timedOut [] 0) ∧
    (readLoopI [9] 0 CHUNK [] [(0, Ev.readData true [1])]).waits = [] ∧
    (readLoopI [9] 0 CHUNK [] [(0, Ev.readData true [1])]).reads = [] :=
  nonpositiveTimeoutImmediateTimedOut [9] 0 0 (Ev.readData true [1]) [] (by decide) (by decide)

/-- C10: starting from `cap = CHUNK = 512` and an empty buffer, at every
`read` call the loop issues, the length is within capacity, capacity is at
least `CHUNK`, and after the (single) conditional doubling the free room
`cap - len` is at least `CHUNK`, so every read stays within bounds. -/
theorem everyReadHasChunkRoom (marker : List Nat) (timeout : Int)
    (trace : List (Int × Ev)) :
    CHUNK = 512 ∧
    ∀ p ∈ (readLoopI marker timeout CHUNK [] trace).reads,
      CHUNK ≤ p.1 ∧ p.2 ≤ p.1 ∧ p.2 + CHUNK ≤ p.1 := by
  refine ⟨rfl, ?_⟩
  exact (readLoopI_spec marker timeout CHUNK [] trace).2.2.2 (le_refl CHUNK) (by simp)

/-- C10 witness: the first read happens at capacity `512`, length `0`, which
leaves a full chunk of room. -/
theorem everyReadHasChunkRoom_witness :
    CHUNK = 512 ∧
    (CHUNK ≤ ((512, 0) : Nat × Nat).1 ∧ ((512, 0) : Nat × Nat).2 ≤ ((512, 0) : Nat × Nat).1 ∧
      ((512, 0) : Nat × Nat).2 + CHUNK ≤ ((512, 0) : Nat × Nat).1) := by
  refine ⟨rfl, ?_⟩
  exact (everyReadHasChunkRoom [9] 5 [(0, Ev.readData true [1])]).2 (512, 0) (by decide)

end UART
